import Mathlib

/-!
Verification of the value model and execution-context core of the
async-graphql runtime, embedded shallowly from the Rust sources
(`parser/src/types/mod.rs`, `src/context.rs`).

Maps (`BTreeMap`, `HashMap`) are embedded as association lists,
`serde_json::Number` payloads are embedded as `Int` (the payload is carried
verbatim in both serialization directions, so any faithful payload model
suffices for the properties below), and fallible operations return `Except`.
-/

namespace AsyncGraphql

/-! ## JSON values (`serde_json::Value`) -/

/-- A generic JSON value, as produced/consumed by `serde_json`. -/
inductive Json where
  | null
  | num (n : Int)
  | str (s : String)
  | bool (b : Bool)
  | arr (items : List Json)
  | obj (entries : List (String × Json))

/-! ## `Name` (`parser/src/types/mod.rs`, lines 564-713) -/

/-- First byte test of `Name::is_valid`: `c.is_ascii_alphabetic() || c == b'_'`
(Rust `u8::is_ascii_alphabetic` is `b'A'..=b'Z' | b'a'..=b'z'`). -/
def nameStartByte (b : Nat) : Bool :=
  (65 ≤ b && b ≤ 90) || (97 ≤ b && b ≤ 122) || b == 95

/-- Remaining byte test of `Name::is_valid`:
`c.is_ascii_alphanumeric() || c == b'_'` (adds `b'0'..=b'9'`). -/
def nameContByte (b : Nat) : Bool :=
  (65 ≤ b && b ≤ 90) || (97 ≤ b && b ≤ 122) || (48 ≤ b && b ≤ 57) || b == 95

/-- `Name::is_valid`. The Rust code iterates the UTF-8 bytes of the string;
every byte class tested is ASCII-only, and a non-ASCII character contributes
only bytes `≥ 0x80` which fail every class, exactly as the character itself
fails the class test, so iterating characters is extensionally identical. -/
def Name.is_valid (s : String) : Bool :=
  match s.data with
  | [] => false
  | c :: cs => nameStartByte c.toNat && cs.all (fun c => nameContByte c.toNat)

/-- A GraphQL name: a string plus the `Name` type's validity invariant
(every Rust `Name` was built through `new`/`new_unchecked`). -/
def Name := { s : String // Name.is_valid s = true }

instance : DecidableEq Name := fun a b =>
  decidable_of_iff (a.val = b.val) Subtype.ext_iff.symm

/-- The wrapped string of a `Name` (`Name::as_str`). -/
def Name.as_str (n : Name) : String := n.val

/-- `Name::new`: validates, returning the rejected string unchanged on
failure. -/
def Name.new (s : String) : Except String Name :=
  if h : Name.is_valid s = true then .ok ⟨s, h⟩ else .error s

/-! ## `ConstValue` (`parser/src/types/mod.rs`, lines 112-278) -/

/-- A resolved GraphQL value (`ConstValue`). Objects are `BTreeMap<Name, _>`
in Rust, embedded as association lists. -/
inductive ConstValue where
  | null
  | number (n : Int)
  | string (s : String)
  | boolean (b : Bool)
  | enum (n : Name)
  | list (items : List ConstValue)
  | object (entries : List (Name × ConstValue))

/-! ## `Value` (`parser/src/types/mod.rs`, lines 280-374) -/

/-- A GraphQL value with variables (`Value`). -/
inductive Value where
  | variable (n : Name)
  | null
  | number (n : Int)
  | string (s : String)
  | boolean (b : Bool)
  | enum (n : Name)
  | list (items : List Value)
  | object (entries : List (Name × Value))

/-! ## Literal rendering (`Display`), lines 184-197, 341-355, 380-412 -/

/-- Rust's `char::is_control`: the Unicode `Cc` category,
`U+0000..=U+001F` and `U+007F..=U+009F`. -/
def isControl (c : Char) : Bool :=
  c.toNat ≤ 0x1F || (0x7F ≤ c.toNat && c.toNat ≤ 0x9F)

/-- Rust's `{:04}` format of a `u32`: decimal digits, zero-padded on the left
to a minimum width of 4. -/
def padDecimal4 (n : Nat) : String :=
  let d := Nat.repr n
  if d.length < 4 then String.mk (List.replicate (4 - d.length) '0') ++ d else d

/-- One character of `write_quoted`'s loop body (lines 382-392). Note the
control-character arm is `write!(f, "\\u{:04}", c as u32)` — decimal,
zero-padded, not hexadecimal. -/
def escapeChar (c : Char) : String :=
  if c = '\r' then "\\r"
  else if c = '\n' then "\\n"
  else if c = '\t' then "\\t"
  else if c = '"' then "\\\""
  else if c = '\\' then "\\\\"
  else if isControl c then "\\u" ++ padDecimal4 c.toNat
  else String.mk [c]

/-- `write_quoted` (lines 380-394). -/
def write_quoted (s : String) : String :=
  "\"" ++ String.join (s.data.map escapeChar) ++ "\""

/-- A lowercase hexadecimal digit. -/
def hexDigit (n : Nat) : Char :=
  if n < 10 then Char.ofNat (48 + n) else Char.ofNat (87 + (n % 16))

/-- The codepoint of a character written as exactly four lowercase hex
digits, zero-padded — the rendering the specification describes for
control characters. -/
def hex4 (n : Nat) : String :=
  String.mk [hexDigit (n / 4096 % 16), hexDigit (n / 256 % 16),
             hexDigit (n / 16 % 16), hexDigit (n % 16)]

/-- `write_list` (lines 395-402): bracketed, every item followed by a comma. -/
def write_list (items : List String) : String :=
  "[" ++ String.join (items.map (· ++ ",")) ++ "]"

/-- `write_object` (lines 403-412): braced, `key: value` pairs each followed
by a comma. -/
def write_object (entries : List (String × String)) : String :=
  "\x7b" ++ String.join (entries.map (fun kv => kv.1 ++ ": " ++ kv.2 ++ ",")) ++ "\x7d"

mutual

/-- `impl Display for Value` (lines 341-355). `Variable` renders as
`$name`; it is not a failure. -/
def Value.display : Value → String
  | .variable name => "$" ++ name.as_str
  | .number num => toString num
  | .string val => write_quoted val
  | .boolean true => "true"
  | .boolean false => "false"
  | .null => "null"
  | .enum name => name.as_str
  | .list items => write_list (Value.displayList items)
  | .object map => write_object (Value.displayObject map)

def Value.displayList : List Value → List String
  | [] => []
  | v :: vs => v.display :: Value.displayList vs

def Value.displayObject : List (Name × Value) → List (String × String)
  | [] => []
  | (k, v) :: kvs => (k.as_str, v.display) :: Value.displayObject kvs

end

mutual

/-- `impl Display for ConstValue` (lines 184-197). -/
def ConstValue.display : ConstValue → String
  | .number num => toString num
  | .string val => write_quoted val
  | .boolean true => "true"
  | .boolean false => "false"
  | .null => "null"
  | .enum name => name.as_str
  | .list items => write_list (ConstValue.displayList items)
  | .object map => write_object (ConstValue.displayObject map)

def ConstValue.displayList : List ConstValue → List String
  | [] => []
  | v :: vs => v.display :: ConstValue.displayList vs

def ConstValue.displayObject : List (Name × ConstValue) → List (String × String)
  | [] => []
  | (k, v) :: kvs => (k.as_str, v.display) :: ConstValue.displayObject kvs

end

/-! ## JSON conversion

`ConstValue` serializes with `#[serde(untagged)]`: each variant serializes
its payload directly (`Null` as JSON null, `Enum` via `Name`'s transparent
string serialization, `Object` as a JSON object whose keys are the names'
strings). No variant of `ConstValue` can fail to serialize, so
`TryFrom<ConstValue> for serde_json::Value` (line 205) always returns `Ok`;
the embedding is total. -/

mutual

/-- `ConstValue::into_json` (lines 164-166, via `serde_json::to_value`). -/
def ConstValue.into_json : ConstValue → Json
  | .null => .null
  | .number n => .num n
  | .string s => .str s
  | .boolean b => .bool b
  | .enum n => .str n.as_str
  | .list items => .arr (ConstValue.intoJsonList items)
  | .object entries => .obj (ConstValue.intoJsonObject entries)

def ConstValue.intoJsonList : List ConstValue → List Json
  | [] => []
  | v :: vs => v.into_json :: ConstValue.intoJsonList vs

def ConstValue.intoJsonObject : List (Name × ConstValue) → List (String × Json)
  | [] => []
  | (k, v) :: kvs => (k.as_str, v.into_json) :: ConstValue.intoJsonObject kvs

end

/-- Serde's error for an untagged enum none of whose (non-skipped) variants
matched the input. -/
def untaggedError : String :=
  "data did not match any variant of untagged enum"

mutual

/-- `ConstValue::from_json` (lines 173-175, via the derived untagged
`Deserialize`; the `Enum` variant is `#[serde(skip_deserializing)]`, and the
`Object` variant requires every key to deserialize as a valid `Name`,
line 684-689). -/
def ConstValue.from_json : Json → Except String ConstValue
  | .null => .ok .null
  | .num n => .ok (.number n)
  | .str s => .ok (.string s)
  | .bool b => .ok (.boolean b)
  | .arr items => (ConstValue.fromJsonList items).map ConstValue.list
  | .obj entries => (ConstValue.fromJsonObject entries).map ConstValue.object

def ConstValue.fromJsonList : List Json → Except String (List ConstValue)
  | [] => .ok []
  | j :: js =>
    (ConstValue.from_json j).bind fun v =>
      (ConstValue.fromJsonList js).map fun vs => v :: vs

def ConstValue.fromJsonObject :
    List (String × Json) → Except String (List (Name × ConstValue))
  | [] => .ok []
  | (k, j) :: kjs =>
    if h : Name.is_valid k = true then
      (ConstValue.from_json j).bind fun v =>
        (ConstValue.fromJsonObject kjs).map fun vs => (⟨k, h⟩, v) :: vs
    else .error untaggedError

end

mutual

/-- Does a `ConstValue` contain an `Enum` node in any subtree? -/
def ConstValue.hasEnum : ConstValue → Bool
  | .null | .number _ | .string _ | .boolean _ => false
  | .enum _ => true
  | .list items => ConstValue.hasEnumList items
  | .object entries => ConstValue.hasEnumObject entries

def ConstValue.hasEnumList : List ConstValue → Bool
  | [] => false
  | v :: vs => v.hasEnum || ConstValue.hasEnumList vs

def ConstValue.hasEnumObject : List (Name × ConstValue) → Bool
  | [] => false
  | (_, v) :: kvs => v.hasEnum || ConstValue.hasEnumObject kvs

end

mutual

/-- `Value::into_json` (lines 321-323, via `serde_json::to_value`): the
`Variable` variant serializes with `fail_serialize_variable` (lines 376-378),
which unconditionally errors; everything else is as for `ConstValue`. -/
def Value.into_json : Value → Except String Json
  | .variable _ => .error "cannot serialize variable"
  | .null => .ok .null
  | .number n => .ok (.num n)
  | .string s => .ok (.str s)
  | .boolean b => .ok (.bool b)
  | .enum n => .ok (.str n.as_str)
  | .list items => (Value.intoJsonList items).map Json.arr
  | .object entries => (Value.intoJsonObject entries).map Json.obj

def Value.intoJsonList : List Value → Except String (List Json)
  | [] => .ok []
  | v :: vs =>
    (v.into_json).bind fun j => (Value.intoJsonList vs).map fun js => j :: js

def Value.intoJsonObject : List (Name × Value) → Except String (List (String × Json))
  | [] => .ok []
  | (k, v) :: kvs =>
    (v.into_json).bind fun j =>
      (Value.intoJsonObject kvs).map fun js => (k.as_str, j) :: js

end

mutual

/-- `Value::from_json` (lines 330-332): the derived untagged `Deserialize`
with both `Variable` and `Enum` marked `#[serde(skip_deserializing)]`
(lines 291, 302) — no JSON input can produce either variant. -/
def Value.from_json : Json → Except String Value
  | .null => .ok .null
  | .num n => .ok (.number n)
  | .str s => .ok (.string s)
  | .bool b => .ok (.boolean b)
  | .arr items => (Value.fromJsonList items).map Value.list
  | .obj entries => (Value.fromJsonObject entries).map Value.object

def Value.fromJsonList : List Json → Except String (List Value)
  | [] => .ok []
  | j :: js =>
    (Value.from_json j).bind fun v =>
      (Value.fromJsonList js).map fun vs => v :: vs

def Value.fromJsonObject :
    List (String × Json) → Except String (List (Name × Value))
  | [] => .ok []
  | (k, j) :: kjs =>
    if h : Name.is_valid k = true then
      (Value.from_json j).bind fun v =>
        (Value.fromJsonObject kjs).map fun vs => (⟨k, h⟩, v) :: vs
    else .error untaggedError

end

mutual

/-- Does a `Value` contain a `Variable` or `Enum` node in any subtree? -/
def Value.hasVarOrEnum : Value → Bool
  | .variable _ => true
  | .enum _ => true
  | .null | .number _ | .string _ | .boolean _ => false
  | .list items => Value.hasVarOrEnumList items
  | .object entries => Value.hasVarOrEnumObject entries

def Value.hasVarOrEnumList : List Value → Bool
  | [] => false
  | v :: vs => v.hasVarOrEnum || Value.hasVarOrEnumList vs

def Value.hasVarOrEnumObject : List (Name × Value) → Bool
  | [] => false
  | (_, v) :: kvs => v.hasVarOrEnum || Value.hasVarOrEnumObject kvs

end

/-! ## Variable-substitution deserializer
(`parser/src/types/mod.rs`, lines 414-503)

`ValueDeserializer` wraps a `Value` plus a lookup `F : &Name -> Option<T>`;
in every use the substituted values are resolved values, so `T` is embedded
as `ConstValue`. The generic (`deserialize_any`) result is embedded as the
`ConstValue` the driven visitor observes: a substituted value deserializes
as itself, and list/object nodes recurse with the same lookup
(`SeqDeserializer`/`MapDeserializer` over `ValueDeserializer::new(v, variables)`,
lines 464-473). -/

/-- `get_variable` (lines 436-445). -/
def get_variable (vars : Name → Option ConstValue) (name : Name) :
    Except String ConstValue :=
  match vars name with
  | none => .error ("variable " ++ name.as_str ++ " is not defined")
  | some v => .ok v

mutual

/-- `ValueDeserializer::deserialize_any` (lines 455-475) observed at the
generic value target. -/
def ValueDeserializer.deserialize_any (vars : Name → Option ConstValue) :
    Value → Except String ConstValue
  | .variable name => get_variable vars name
  | .null => .ok .null
  | .number n => .ok (.number n)
  | .string s => .ok (.string s)
  | .boolean b => .ok (.boolean b)
  | .enum v => .ok (.enum v)
  | .list a => (ValueDeserializer.deserializeList vars a).map ConstValue.list
  | .object o => (ValueDeserializer.deserializeObject vars o).map ConstValue.object

def ValueDeserializer.deserializeList (vars : Name → Option ConstValue) :
    List Value → Except String (List ConstValue)
  | [] => .ok []
  | v :: vs =>
    (ValueDeserializer.deserialize_any vars v).bind fun c =>
      (ValueDeserializer.deserializeList vars vs).map fun cs => c :: cs

def ValueDeserializer.deserializeObject (vars : Name → Option ConstValue) :
    List (Name × Value) → Except String (List (Name × ConstValue))
  | [] => .ok []
  | (k, v) :: kvs =>
    (ValueDeserializer.deserialize_any vars v).bind fun c =>
      (ValueDeserializer.deserializeObject vars kvs).map fun cs => (k, c) :: cs

end

/-- An `i64` target driven through a substituted `ConstValue`'s
`deserialize_any` (line 217/251: numbers forward to the number's own
deserializer, which visits the integer; any other node is a type error). -/
def constAsI64 : ConstValue → Except String Int
  | .number n => .ok n
  | _ => .error "invalid type"

/-- `ValueDeserializer` driven by an `i64` target (`deserialize_i64`
forwards to `deserialize_any`, lines 486-490): a `Variable` is substituted
first (line 458), then the replacement drives the visitor. -/
def ValueDeserializer.deserializeI64 (vars : Name → Option ConstValue) :
    Value → Except String Int
  | .variable name => (get_variable vars name).bind constAsI64
  | .number n => .ok n
  | _ => .error "invalid type"

/-! ## `Value::into_const_with` and boolean input parsing

`is_skip` (src/context.rs lines 600-626) resolves the directive argument
through `resolve_input_value` (lines 585-590), which calls
`Value::into_const_with` — defined in the value crate, not present under
`src/` — and then parses with `<bool as InputType>::parse`, also not
present under `src/`. Both are modelled from the spec. -/

mutual

/-- Modelled from the spec: `Value::into_const_with` is not under `src/`.
Spec §4.2: "Value→ConstValue conversion is partial, requiring every
Variable node to be resolved through a caller-supplied lookup … or the
conversion fails". -/
def Value.into_const_with (f : Name → Except String ConstValue) :
    Value → Except String ConstValue
  | .variable name => f name
  | .null => .ok .null
  | .number n => .ok (.number n)
  | .string s => .ok (.string s)
  | .boolean b => .ok (.boolean b)
  | .enum n => .ok (.enum n)
  | .list items => (Value.intoConstList f items).map ConstValue.list
  | .object entries => (Value.intoConstObject f entries).map ConstValue.object

def Value.intoConstList (f : Name → Except String ConstValue) :
    List Value → Except String (List ConstValue)
  | [] => .ok []
  | v :: vs =>
    (v.into_const_with f).bind fun c =>
      (Value.intoConstList f vs).map fun cs => c :: cs

def Value.intoConstObject (f : Name → Except String ConstValue) :
    List (Name × Value) → Except String (List (Name × ConstValue))
  | [] => .ok []
  | (k, v) :: kvs =>
    (v.into_const_with f).bind fun c =>
      (Value.intoConstObject f kvs).map fun cs => (k, c) :: cs

end

/-- Modelled from the spec: `<bool as InputType>::parse` is not under
`src/`. Spec §4.6: the directive argument value is "parsed as a boolean";
a boolean value parses to itself, anything else is an input type error. -/
def boolInputParse : Option ConstValue → Except String Bool
  | some (.boolean b) => .ok b
  | _ => .error "Expected type \"Boolean\""

/-! ## Directives and `is_skip` (src/context.rs lines 505-627)

Source positions (`Positioned`) only decorate error values and are dropped;
errors are embedded as their message strings. -/

/-- A GraphQL directive (`Directive`, parser lines 542-551). -/
structure Directive where
  name : String
  arguments : List (Name × Value)

/-- `Directive::get_argument` (lines 553-562): first argument with the given
name. -/
def Directive.get_argument (d : Directive) (name : String) : Option Value :=
  (d.arguments.find? (fun item => item.1.as_str == name)).map (·.2)

/-- A variable definition of the current operation (name and optional
default value; the pieces `var_value` reads). -/
structure VariableDefinition where
  name : Name
  default_value : Option ConstValue

/-- The slices of the execution context that `is_skip` consults: the
operation's variable definitions and the request's variable map
(`Variables`, a `BTreeMap<Name, ConstValue>`). -/
structure ExecCtx where
  variable_definitions : List VariableDefinition
  vars : List (Name × ConstValue)

/-- `ContextBase::var_value` (lines 567-583): find the variable definition,
then the request-supplied value, else the definition's default, else a
"Variable … is not defined." error. -/
def ExecCtx.var_value (ctx : ExecCtx) (name : Name) : Except String ConstValue :=
  match ctx.variable_definitions.find? (fun d => d.name = name) with
  | none => .error ("Variable " ++ name.as_str ++ " is not defined.")
  | some d =>
    match (ctx.vars.find? (fun kv => kv.1 = d.name)).map (·.2) with
    | some v => .ok v
    | none =>
      match d.default_value with
      | some v => .ok v
      | none => .error ("Variable " ++ name.as_str ++ " is not defined.")

/-- `ContextBase::resolve_input_value` (lines 585-590). -/
def ExecCtx.resolve_input_value (ctx : ExecCtx) (value : Value) :
    Except String ConstValue :=
  value.into_const_with (fun name => ctx.var_value name)

/-- The `match &*directive.node.name.node` at the top of `is_skip`'s loop
(lines 602-606): `skip` maps to `include = false`, `include` to
`include = true`, anything else continues the loop. -/
def directiveInclude (name : String) : Option Bool :=
  if name = "skip" then some false
  else if name = "include" then some true
  else none

/-- `ContextBase::is_skip` (lines 600-626): walk the directives in order;
for a `skip`/`include` directive a missing `if` argument is a hard error;
the argument is resolved through variable substitution and parsed as a
boolean; if the parsed condition differs from `include`, return `Ok(true)`
immediately, never looking at the remaining directives. -/
def ExecCtx.is_skip (ctx : ExecCtx) : List Directive → Except String Bool
  | [] => .ok false
  | directive :: rest =>
    match directiveInclude directive.name with
    | none => ctx.is_skip rest
    | some include' =>
      match directive.get_argument "if" with
      | none =>
        .error ("Directive @" ++ (if include' then "include" else "skip") ++
          " requires argument `if` of type `Boolean!` but it was not provided.")
      | some condition_input =>
        (ctx.resolve_input_value condition_input).bind fun cv =>
          (boolInputParse (some cv)).bind fun b =>
            if include' ≠ b then .ok true else ctx.is_skip rest

/-! ## Type-indexed data maps (src/context.rs lines 103-128, 411-445)

`Data` is `FnvHashMap<TypeId, Box<dyn Any + Sync + Send>>`; lookups key on
`TypeId::of::<D>()` and downcast. Because every entry is stored under the
`TypeId` of the value's own type, the `downcast_ref::<D>` after a hit on
`TypeId::of::<D>()` always succeeds; the embedding is therefore a typed map
from a type key (embedded as the type's name string, which is also what the
error message prints) to values. -/

/-- `ContextBase::data_opt` (lines 438-445): the query-scoped map is
consulted first, the schema-scoped map second. -/
def data_opt {V : Type} (queryData schemaData : String → Option V)
    (ty : String) : Option V :=
  (queryData ty).orElse (fun _ => schemaData ty)

/-- `ContextBase::data` (lines 418-425): `data_opt`, with absence turned
into an error naming the requested type. -/
def dataChecked {V : Type} (queryData schemaData : String → Option V)
    (ty : String) : Except String V :=
  match data_opt queryData schemaData ty with
  | some v => .ok v
  | none => .error ("Data `" ++ ty ++ "` does not exist.")

/-- `ContextBase::data_unchecked` (lines 432-435): the same lookup; absence
panics (a caller contract violation), so only the present case has a value. -/
def data_unchecked {V : Type} (queryData schemaData : String → Option V)
    (ty : String) : Option V :=
  data_opt queryData schemaData ty

/-! ## HTTP header overlay (src/context.rs lines 473-565)

Modelled from the spec: the overlay is an `http::HeaderMap<String>` behind a
mutex — the `http` crate is an external dependency, not part of this
repository. Spec §4.6: "`insert_http_header` (replace all existing values
under a key, return only the first previous value if any existed),
`append_http_header` (add a value without removing existing ones, return
whether the key already existed)". The multimap is embedded as a list of
key/value pairs in insertion order (header names are already normalized). -/

/-- The shared header overlay. -/
abbrev Headers : Type := List (String × String)

/-- All values currently stored under a key, in order. -/
def Headers.get_all (h : Headers) (k : String) : List String :=
  (List.filter (fun p => p.1 == k) h).map (·.2)

/-- `ContextBase::insert_http_header` (lines 517-526): remove every value
under the key, store the new one, return the first previously stored value. -/
def Headers.insert_http_header (h : Headers) (k v : String) :
    Option String × Headers :=
  ((List.find? (fun p => p.1 == k) h).map (·.2),
   List.filter (fun p => !(p.1 == k)) h ++ [(k, v)])

/-- `ContextBase::append_http_header` (lines 560-565): add the value, keep
the existing ones, report whether the key was already present. -/
def Headers.append_http_header (h : Headers) (k v : String) :
    Bool × Headers :=
  (List.any h (fun p => p.1 == k), h ++ [(k, v)])

/-! ## Resolve-id allocation (src/context.rs lines 269-297, 365-409, 629-644)

A query execution owns one `AtomicUsize` counter (`inc_resolve_id`), shared
by reference by every context. `get_child_resolve_id` performs
`fetch_add(1) + 1` and pairs the fresh id with the spawning context's
current id. `with_field` and `with_index` both allocate through it;
`with_selection_set` copies the parent's `resolve_id` and touches neither
the counter nor the id. Atomicity makes every interleaving of concurrent
allocations equivalent to some sequence of these operations, which is what
the trace below quantifies over. -/

/-- `ResolveId` (lines 269-277). -/
structure ResolveId where
  parent : Option Nat
  current : Nat
deriving DecidableEq

/-- `ResolveId::root` (lines 279-287). -/
def ResolveId.root : ResolveId := ⟨none, 0⟩

/-- One context-descent operation, naming the spawning context by its
position in the list of contexts created so far (`0` is the root). -/
inductive DescentOp where
  | withField (src : Nat)
  | withIndex (src : Nat)
  | withSelectionSet (src : Nat)

/-- The execution state: every context's `ResolveId` created so far (root
first), the shared counter, and the ids allocated by `get_child_resolve_id`
in order. -/
structure ExecState where
  ctxs : List ResolveId
  counter : Nat
  alloc : List ResolveId

/-- The state at the start of a query execution: the root context
(`ResolveId::root`) and a zeroed counter. -/
def ExecState.init : ExecState := ⟨[ResolveId.root], 0, []⟩

/-- One descent. `with_field`/`with_index` (lines 379-394, 631-644) allocate
`ResolveId { parent: Some(self.resolve_id.current), current: fetch_add(1)+1 }`;
`with_selection_set` (lines 397-409) copies the spawning context's id. A
reference to a context that does not exist leaves the state unchanged. -/
def ExecState.step (s : ExecState) (op : DescentOp) : ExecState :=
  match op with
  | .withField src | .withIndex src =>
    match s.ctxs.get? src with
    | none => s
    | some c =>
      let r : ResolveId := ⟨some c.current, s.counter + 1⟩
      ⟨s.ctxs ++ [r], s.counter + 1, s.alloc ++ [r]⟩
  | .withSelectionSet src =>
    match s.ctxs.get? src with
    | none => s
    | some c => ⟨s.ctxs ++ [c], s.counter, s.alloc⟩

/-- A whole execution: fold the descents over the initial state. -/
def ExecState.run (ops : List DescentOp) : ExecState :=
  ops.foldl ExecState.step ExecState.init

/-! ## Selection-set introspection iterator
(src/context.rs lines 747-827)

The AST node types (`Selection`, `Field`, `FragmentDefinition`) live in the
parser's `executable` module, which is not under `src/`; they are modelled
from the spec (§6): "Field (name, … nested selection set), SelectionSet
(ordered sequence of Selection: Field | FragmentSpread | InlineFragment)".
Only the pieces the iterator reads are carried. -/

/-- Modelled from the spec: one entry of a selection set. -/
inductive Selection where
  | field (name : String) (selection_set : List Selection)
  | fragmentSpread (fragment_name : String)
  | inlineFragment (selection_set : List Selection)

/-- The fragment table (`HashMap<Name, Positioned<FragmentDefinition>>`),
embedded as an association list keyed by fragment name, carrying each
fragment's selection set. -/
abbrev Fragments : Type := List (String × List Selection)

/-- Table lookup (`self.fragments.get(...)`, line 810). -/
def Fragments.lookup (frags : Fragments) (n : String) : Option (List Selection) :=
  (List.find? (fun p => p.1 == n) frags).map (·.2)

/-- `SelectionFieldsIter::next` (lines 794-827), run to completion with
explicit fuel (one unit per loop iteration). The iterator state is the
stack of iterators (`iter: Vec<...>`, top of stack last in Rust, first
here); a `Field` is yielded, a known `FragmentSpread` or an
`InlineFragment` pushes its selection set, an unknown `FragmentSpread` is
skipped, an exhausted iterator is popped. `none` means the fuel ran out
before the iterator finished. -/
def runIter (frags : Fragments) : Nat → List (List Selection) →
    Option (List (String × List Selection))
  | 0, _ => none
  | _ + 1, [] => some []
  | fuel + 1, [] :: rest => runIter frags fuel rest
  | fuel + 1, (Selection.field name ss :: tl) :: rest =>
    (runIter frags fuel (tl :: rest)).map (fun out => (name, ss) :: out)
  | fuel + 1, (Selection.fragmentSpread n :: tl) :: rest =>
    match Fragments.lookup frags n with
    | some body => runIter frags fuel (body :: tl :: rest)
    | none => runIter frags fuel (tl :: rest)
  | fuel + 1, (Selection.inlineFragment ss :: tl) :: rest =>
    runIter frags fuel (ss :: tl :: rest)

/-- `SelectionField::selection_set` (lines 760-767): iterate starting from
the stack holding just the field's own selection-set items. -/
def selection_set_iter (frags : Fragments) (fuel : Nat)
    (selection_set : List Selection) :
    Option (List (String × List Selection)) :=
  runIter frags fuel [selection_set]

mutual

/-- The fragment names spread in a selection, *at the level the iterator
walks*: inline fragments are pushed by the iterator, so their bodies count;
a field's nested selection set is not descended into. -/
def Selection.spreads : Selection → List String
  | .field _ _ => []
  | .fragmentSpread n => [n]
  | .inlineFragment ss => Selection.spreadsList ss

def Selection.spreadsList : List Selection → List String
  | [] => []
  | s :: ss => Selection.spreads s ++ Selection.spreadsList ss

end

/-- Acyclicity of the fragment-spread reachability relation, expressed as a
rank function that strictly decreases along every spread edge out of every
fragment body (for a finite table this is equivalent to the relation having
no cycle). -/
abbrev RankOk (frags : Fragments) (rank : String → Nat) : Prop :=
  ∀ p ∈ frags, ∀ m ∈ Selection.spreadsList p.2, rank m < rank p.1

/-- Every selection list on the iterator stack only spreads fragments of
rank below the bound. -/
abbrev StackOk (frags : Fragments) (rank : String → Nat) (B : Nat)
    (stack : List (List Selection)) : Prop :=
  ∀ l ∈ stack, ∀ m ∈ Selection.spreadsList l, rank m < B

mutual

/-- Termination potential of one selection on the iterator's stack,
expanding spreads only to the given depth bound: a field or an unknown
spread costs 1; an inline fragment costs 1 plus its body; a known spread
costs 1 plus its fragment body at one less depth. -/
def potSel (frags : Fragments) : Nat → Selection → Nat
  | _, .field _ _ => 1
  | b, .inlineFragment ss => 1 + potSels frags b ss
  | 0, .fragmentSpread _ => 1
  | b + 1, .fragmentSpread n =>
    match Fragments.lookup frags n with
    | none => 1
    | some body => 1 + potSels frags b body
termination_by b s => (b, sizeOf s)

/-- Termination potential of a list of selections. -/
def potSels (frags : Fragments) : Nat → List Selection → Nat
  | _, [] => 0
  | b, s :: ss => potSel frags b s + potSels frags b ss
termination_by b ss => (b, sizeOf ss)

end

/-- Termination potential of the whole iterator stack. -/
def potStack (frags : Fragments) (b : Nat) (stack : List (List Selection)) : Nat :=
  match stack with
  | [] => 0
  | l :: rest => potSels frags b l + potStack frags b rest

/-! ## Spec-side renderings and matchers

These definitions follow the specification's words, for comparison against
the embeddings of the source above. -/

/-- The spec's character class `[_A-Za-z]`. -/
def regexStart (c : Char) : Bool :=
  c = '_' || ('A' ≤ c && c ≤ 'Z') || ('a' ≤ c && c ≤ 'z')

/-- The spec's character class `[_0-9A-Za-z]`. -/
def regexCont (c : Char) : Bool :=
  regexStart c || ('0' ≤ c && c ≤ '9')

/-- Whether a string matches the spec's regex `[_A-Za-z][_0-9A-Za-z]*`. -/
def matchesNameRegex (s : String) : Bool :=
  match s.data with
  | [] => false
  | c :: cs => regexStart c && cs.all regexCont

/-! # Theorems -/

/-! ## Supporting lemmas -/

theorem char_eq_iff_toNat (a b : Char) : (a = b) ↔ a.toNat = b.toNat := by
  constructor
  · intro h; rw [h]
  · intro h; exact Char.eq_of_val_eq (UInt32.ext h)

theorem nameStartByte_eq_regexStart (c : Char) :
    nameStartByte c.toNat = regexStart c := by
  unfold nameStartByte regexStart
  have he : (decide (c = '_')) = (decide (c.toNat = 95)) :=
    decide_eq_decide.mpr (char_eq_iff_toNat c '_')
  have hA : (decide ('A' ≤ c)) = (decide (65 ≤ c.toNat)) := decide_eq_decide.mpr Iff.rfl
  have hZ : (decide (c ≤ 'Z')) = (decide (c.toNat ≤ 90)) := decide_eq_decide.mpr Iff.rfl
  have ha : (decide ('a' ≤ c)) = (decide (97 ≤ c.toNat)) := decide_eq_decide.mpr Iff.rfl
  have hz : (decide (c ≤ 'z')) = (decide (c.toNat ≤ 122)) := decide_eq_decide.mpr Iff.rfl
  rw [he, hA, hZ, ha, hz, Bool.eq_iff_iff]
  simp only [Bool.or_eq_true, Bool.and_eq_true, decide_eq_true_eq, beq_iff_eq]
  omega

theorem nameContByte_eq_regexCont (c : Char) :
    nameContByte c.toNat = regexCont c := by
  unfold nameContByte regexCont
  rw [← nameStartByte_eq_regexStart]
  have h0 : (decide ('0' ≤ c)) = (decide (48 ≤ c.toNat)) := decide_eq_decide.mpr Iff.rfl
  have h9 : (decide (c ≤ '9')) = (decide (c.toNat ≤ 57)) := decide_eq_decide.mpr Iff.rfl
  rw [h0, h9, Bool.eq_iff_iff]
  unfold nameStartByte
  simp only [Bool.or_eq_true, Bool.and_eq_true, decide_eq_true_eq, beq_iff_eq]
  omega

theorem all_contByte_eq (cs : List Char) :
    cs.all (fun c => nameContByte c.toNat) = cs.all regexCont := by
  induction cs with
  | nil => rfl
  | cons c cs ih => simp only [List.all_cons, nameContByte_eq_regexCont, ih]

theorem headers_get_all_append_list (x y : Headers) (k : String) :
    Headers.get_all (x ++ y) k = Headers.get_all x k ++ Headers.get_all y k := by
  unfold Headers.get_all
  simp [List.filter_append]

theorem headers_get_all_removed_same (h : Headers) (k : String) :
    Headers.get_all (List.filter (fun p => !(p.1 == k)) h) k = [] := by
  unfold Headers.get_all
  rw [List.filter_filter]
  have hnil : List.filter (fun a => a.1 == k && !(a.1 == k)) h = [] := by
    rw [List.filter_eq_nil_iff]
    intro a _
    cases haa : (a.1 == k) <;> simp [haa]
  rw [hnil]
  rfl

theorem headers_get_all_removed_other (h : Headers) (k k' : String) (hk : k' ≠ k) :
    Headers.get_all (List.filter (fun p => !(p.1 == k)) h) k' = Headers.get_all h k' := by
  unfold Headers.get_all
  rw [List.filter_filter]
  have hsame : List.filter (fun a => a.1 == k' && !(a.1 == k)) h =
      List.filter (fun p => p.1 == k') h := by
    apply List.filter_congr
    intro a _
    by_cases hak' : a.1 = k'
    · have hb' : (a.1 == k') = true := beq_iff_eq.mpr hak'
      have hb : (a.1 == k) = false :=
        beq_eq_false_iff_ne.mpr (fun hh => hk (hak'.symm.trans hh))
      simp [hb, hb']
    · have hb' : (a.1 == k') = false := beq_eq_false_iff_ne.mpr hak'
      simp [hb']
  rw [hsame]

theorem headers_get_all_insert (h : Headers) (k v k' : String) :
    Headers.get_all (Headers.insert_http_header h k v).2 k' =
      if k' = k then [v] else Headers.get_all h k' := by
  show Headers.get_all (List.filter (fun p => !(p.1 == k)) h ++ [(k, v)]) k' = _
  rw [headers_get_all_append_list]
  by_cases hk : k' = k
  · subst hk
    rw [headers_get_all_removed_same]
    simp [Headers.get_all, List.filter_cons]
  · rw [headers_get_all_removed_other h k k' hk]
    have hb : (k == k') = false := beq_eq_false_iff_ne.mpr (Ne.symm hk)
    simp [Headers.get_all, List.filter_cons, hb, hk]

theorem headers_insert_returns_first (h : Headers) (k v : String) :
    (Headers.insert_http_header h k v).1 = (Headers.get_all h k).head? := by
  unfold Headers.insert_http_header Headers.get_all
  induction h with
  | nil => rfl
  | cons a t ih =>
    by_cases hak : a.1 = k
    · have hb : (a.1 == k) = true := beq_iff_eq.mpr hak
      simp [List.find?_cons, List.filter_cons, hb]
    · have hb : (a.1 == k) = false := beq_eq_false_iff_ne.mpr hak
      simp only [List.find?_cons, List.filter_cons, hb] at *
      simpa using ih

theorem headers_append_existed (h : Headers) (k v : String) :
    (Headers.append_http_header h k v).1 = !(Headers.get_all h k).isEmpty := by
  unfold Headers.append_http_header Headers.get_all
  induction h with
  | nil => rfl
  | cons a t ih =>
    by_cases hak : a.1 = k
    · have hb : (a.1 == k) = true := beq_iff_eq.mpr hak
      simp [List.any_cons, List.filter_cons, hb]
    · have hb : (a.1 == k) = false := beq_eq_false_iff_ne.mpr hak
      simp only [List.any_cons, List.filter_cons, hb, Bool.false_or] at *
      exact ih

theorem headers_get_all_append (h : Headers) (k v k' : String) :
    Headers.get_all (Headers.append_http_header h k v).2 k' =
      Headers.get_all h k' ++ (if k' = k then [v] else []) := by
  show Headers.get_all (h ++ [(k, v)]) k' = _
  rw [headers_get_all_append_list]
  by_cases hk : k' = k
  · subst hk; simp [Headers.get_all, List.filter_cons]
  · have hb : (k == k') = false := beq_eq_false_iff_ne.mpr (Ne.symm hk)
    simp [Headers.get_all, List.filter_cons, hb, hk]

/-! ## Claims -/

/-- C1: the claim says a control character (other than `\r`, `\n`, `\t`) is
rendered by the literal `Display` as a `\u` escape of exactly four
zero-padded *hex* digits. The code (`write_quoted`, line 389) formats the
codepoint with `{:04}` — *decimal*, zero-padded. On the string containing
only U+000B the rendering is `"\u0011"` (decimal 11), not the hex
`"\u000b"`; the two disagree, and the decimal escape re-parses to U+0011. -/
theorem c1_write_quoted_decimal_not_hex :
    ConstValue.display (.string "\x0B") = "\"\\u0011\"" ∧
    Value.display (.string "\x0B") = "\"\\u0011\"" ∧
    hex4 0x0B = "000b" ∧
    ConstValue.display (.string "\x0B") ≠ "\"\\u" ++ hex4 0x0B ++ "\"" :=
  ⟨rfl, rfl, rfl, by decide⟩

/-- C6: `Name::is_valid` returns true exactly on strings matching
`[_A-Za-z][_0-9A-Za-z]*` (`"_"` valid, `"123x"` and `"a b"` invalid), and
`Name::new` succeeds exactly when `is_valid` holds, returning the original
unmodified string on failure and wrapping exactly the input on success. -/
theorem c6_name_validation :
    (∀ s : String, Name.is_valid s = matchesNameRegex s) ∧
    Name.is_valid "_" = true ∧
    Name.is_valid "123x" = false ∧
    Name.is_valid "a b" = false ∧
    (∀ s : String, (Name.new s).isOk = Name.is_valid s) ∧
    (∀ s : String, Name.is_valid s = false → Name.new s = .error s) ∧
    (∀ (s : String) (n : Name), Name.new s = .ok n → n.as_str = s) := by
  refine ⟨?_, by decide, by decide, by decide, ?_, ?_, ?_⟩
  · intro s
    simp only [Name.is_valid, matchesNameRegex]
    cases h : s.data with
    | nil => rfl
    | cons c cs => simp only [nameStartByte_eq_regexStart, all_contByte_eq]
  · intro s
    unfold Name.new
    by_cases h : Name.is_valid s = true
    · simp [h, Except.isOk, Except.toBool]
    · simp only [Bool.not_eq_true] at h
      simp [h, Except.isOk, Except.toBool]
  · intro s h
    unfold Name.new
    simp [h]
  · intro s n h
    unfold Name.new at h
    split at h
    · cases h; rfl
    · cases h

/-- Witness for C6 at concrete inputs. -/
theorem c6_name_validation_witness :
    Name.new "a b" = .error "a b" ∧
    Name.as_str ⟨"_", by decide⟩ = "_" :=
  ⟨c6_name_validation.2.2.2.2.2.1 "a b" (by decide),
   c6_name_validation.2.2.2.2.2.2 "_" ⟨"_", by decide⟩ rfl⟩

/-- C7: context data lookup consults the query-scoped map first and the
schema-scoped map second; `data` errors naming the requested type when the
type is in neither, while `data_opt` returns `None`. -/
theorem c7_data_lookup_precedence :
    ∀ {V : Type} (queryData schemaData : String → Option V) (ty : String),
    (∀ v, queryData ty = some v →
      data_opt queryData schemaData ty = some v ∧
      dataChecked queryData schemaData ty = .ok v ∧
      data_unchecked queryData schemaData ty = some v) ∧
    (queryData ty = none → ∀ v, schemaData ty = some v →
      data_opt queryData schemaData ty = some v ∧
      dataChecked queryData schemaData ty = .ok v ∧
      data_unchecked queryData schemaData ty = some v) ∧
    (queryData ty = none → schemaData ty = none →
      data_opt queryData schemaData ty = none ∧
      dataChecked queryData schemaData ty =
        .error ("Data `" ++ ty ++ "` does not exist.")) := by
  intro V q s ty
  refine ⟨?_, ?_, ?_⟩
  · intro v hq
    unfold data_unchecked dataChecked data_opt
    simp [hq, Option.orElse]
  · intro hq v hs
    unfold data_unchecked dataChecked data_opt
    simp [hq, hs, Option.orElse]
  · intro hq hs
    unfold dataChecked data_opt
    simp [hq, hs, Option.orElse]

/-- Witness for C7 at concrete maps: the same type key stored at both
scopes yields the query-scoped value; an absent key errors naming it. -/
theorem c7_data_lookup_precedence_witness :
    data_opt (fun t => if t = "T" then some 2 else none)
      (fun t => if t = "T" then some 1 else none) "T" = some 2 ∧
    dataChecked (fun _ => (none : Option Nat)) (fun _ => none) "U" =
      .error ("Data `" ++ "U" ++ "` does not exist.") :=
  ⟨((c7_data_lookup_precedence _ _ "T").1 2 rfl).1,
   ((c7_data_lookup_precedence _ _ "U").2.2 rfl rfl).2⟩

/-- C8 (spec-modelled `http::HeaderMap`): `insert_http_header` removes every
value under the key, stores the new one and returns the first previously
stored value (`None` when absent); `append_http_header` keeps the existing
values, adds the new one and returns whether the key was already present;
including the spec's concrete Custom-Header / Set-Cookie scenario. -/
theorem c8_header_overlay :
    (∀ (h : Headers) (k v : String),
      (Headers.insert_http_header h k v).1 = (Headers.get_all h k).head?) ∧
    (∀ (h : Headers) (k v k' : String),
      Headers.get_all (Headers.insert_http_header h k v).2 k' =
        if k' = k then [v] else Headers.get_all h k') ∧
    (∀ (h : Headers) (k v : String),
      (Headers.append_http_header h k v).1 = !(Headers.get_all h k).isEmpty) ∧
    (∀ (h : Headers) (k v k' : String),
      Headers.get_all (Headers.append_http_header h k v).2 k' =
        Headers.get_all h k' ++ (if k' = k then [v] else [])) ∧
    ((Headers.insert_http_header [] "Custom-Header" "1234").1 = none ∧
      (Headers.insert_http_header
        (Headers.insert_http_header [] "Custom-Header" "1234").2
        "Custom-Header" "Hello World").1 = some "1234") ∧
    ((Headers.append_http_header
        (Headers.insert_http_header [] "Set-Cookie" "Chocolate Chip").2
        "Set-Cookie" "Macadamia").1 = true ∧
      Headers.get_all
        (Headers.append_http_header
          (Headers.insert_http_header [] "Set-Cookie" "Chocolate Chip").2
          "Set-Cookie" "Macadamia").2 "Set-Cookie" =
        ["Chocolate Chip", "Macadamia"]) :=
  ⟨headers_insert_returns_first, headers_get_all_insert,
   headers_append_existed, headers_get_all_append,
   ⟨rfl, rfl⟩, ⟨rfl, rfl⟩⟩

mutual

theorem value_from_json_no_var_enum :
    ∀ (j : Json) (v : Value), Value.from_json j = .ok v → v.hasVarOrEnum = false
  | .null, v, h => by
    simp only [Value.from_json, Except.ok.injEq] at h
    subst h; rfl
  | .num n, v, h => by
    simp only [Value.from_json, Except.ok.injEq] at h
    subst h; rfl
  | .str s, v, h => by
    simp only [Value.from_json, Except.ok.injEq] at h
    subst h; rfl
  | .bool b, v, h => by
    simp only [Value.from_json, Except.ok.injEq] at h
    subst h; rfl
  | .arr items, v, h => by
    simp only [Value.from_json] at h
    cases hl : Value.fromJsonList items with
    | error e => rw [hl] at h; exact Except.noConfusion h
    | ok vs =>
      rw [hl] at h
      injection h with h
      subst h
      simp only [Value.hasVarOrEnum]
      exact value_from_json_no_var_enum_list items vs hl
  | .obj entries, v, h => by
    simp only [Value.from_json] at h
    cases hl : Value.fromJsonObject entries with
    | error e => rw [hl] at h; exact Except.noConfusion h
    | ok kvs =>
      rw [hl] at h
      injection h with h
      subst h
      simp only [Value.hasVarOrEnum]
      exact value_from_json_no_var_enum_obj entries kvs hl

theorem value_from_json_no_var_enum_list :
    ∀ (js : List Json) (vs : List Value),
      Value.fromJsonList js = .ok vs → Value.hasVarOrEnumList vs = false
  | [], vs, h => by
    simp only [Value.fromJsonList, Except.ok.injEq] at h
    subst h; rfl
  | j :: js, vs, h => by
    simp only [Value.fromJsonList] at h
    cases h1 : Value.from_json j with
    | error e => rw [h1] at h; exact Except.noConfusion h
    | ok v =>
      rw [h1] at h
      cases h2 : Value.fromJsonList js with
      | error e => rw [h2] at h; exact Except.noConfusion h
      | ok ws =>
        rw [h2] at h
        injection h with h
        subst h
        simp only [Value.hasVarOrEnumList, Bool.or_eq_false_iff]
        exact ⟨value_from_json_no_var_enum j v h1,
               value_from_json_no_var_enum_list js ws h2⟩

theorem value_from_json_no_var_enum_obj :
    ∀ (kjs : List (String × Json)) (kvs : List (Name × Value)),
      Value.fromJsonObject kjs = .ok kvs → Value.hasVarOrEnumObject kvs = false
  | [], kvs, h => by
    simp only [Value.fromJsonObject, Except.ok.injEq] at h
    subst h; rfl
  | (k, j) :: kjs, kvs, h => by
    simp only [Value.fromJsonObject] at h
    split at h
    · cases h1 : Value.from_json j with
      | error e => rw [h1] at h; exact Except.noConfusion h
      | ok v =>
        rw [h1] at h
        cases h2 : Value.fromJsonObject kjs with
        | error e => rw [h2] at h; exact Except.noConfusion h
        | ok ws =>
          rw [h2] at h
          injection h with h
          subst h
          simp only [Value.hasVarOrEnumObject, Bool.or_eq_false_iff]
          exact ⟨value_from_json_no_var_enum j v h1,
                 value_from_json_no_var_enum_obj kjs ws h2⟩
    · exact Except.noConfusion h

end

/-- C2 counterexample: the claim says rendering `Value::Variable(n)` with
`Display` is a runtime failure. It is not: the `Display` impl (line 344)
renders `Variable(name)` as `write!(f, "${}", name)`, a successful
rendering. At the concrete input `Variable("x")` the output is `$x`. -/
theorem c2_variable_display_succeeds :
    Value.display (.variable ⟨"x", by decide⟩) = "$x" := rfl

/-- C2 (amended): serializing `Value::Variable(n)` to JSON fails with
"cannot serialize variable" for every name; rendering it with `Display`
*succeeds*, producing `$` followed by the name (it is not a failure); and
no JSON input deserializes into a `Variable` or `Enum` node. -/
theorem c2_variable_serialization :
    (∀ n : Name, Value.into_json (.variable n) = .error "cannot serialize variable") ∧
    (∀ n : Name, Value.display (.variable n) = "$" ++ n.as_str) ∧
    (∀ (j : Json) (v : Value), Value.from_json j = .ok v → v.hasVarOrEnum = false) :=
  ⟨fun _ => rfl, fun _ => rfl, value_from_json_no_var_enum⟩

/-- Witness for C2 at concrete inputs. -/
theorem c2_variable_serialization_witness :
    Value.into_json (.variable ⟨"x", by decide⟩) = .error "cannot serialize variable" ∧
    Value.hasVarOrEnum (.number 5) = false :=
  ⟨c2_variable_serialization.1 ⟨"x", by decide⟩,
   c2_variable_serialization.2.2 (.num 5) (.number 5) rfl⟩

/-- C3: the substitution deserializer fails on `Variable(name)` with a
message naming the variable when the lookup misses; proceeds on the
substituted value when it hits; concretely, `Variable("x")` against
`{x: Number(5)}` deserializes to the integer 5 and against `{}` fails
naming `x`; and non-variable nodes recurse structurally with the same
lookup into list elements and object values. -/
theorem c3_value_deserializer :
    (∀ (vars : Name → Option ConstValue) (name : Name), vars name = none →
      ValueDeserializer.deserialize_any vars (.variable name) =
        .error ("variable " ++ name.as_str ++ " is not defined")) ∧
    (∀ (vars : Name → Option ConstValue) (name : Name) (v : ConstValue),
      vars name = some v →
      ValueDeserializer.deserialize_any vars (.variable name) = .ok v) ∧
    (ValueDeserializer.deserializeI64
      (fun n => if n.as_str = "x" then some (.number 5) else none)
      (.variable ⟨"x", by decide⟩) = .ok 5) ∧
    (ValueDeserializer.deserializeI64 (fun _ => none)
      (.variable ⟨"x", by decide⟩) =
      .error ("variable " ++ "x" ++ " is not defined")) ∧
    (∀ (vars : Name → Option ConstValue) (items : List Value),
      ValueDeserializer.deserialize_any vars (.list items) =
        (ValueDeserializer.deserializeList vars items).map ConstValue.list) ∧
    (∀ (vars : Name → Option ConstValue) (v : Value) (vs : List Value),
      ValueDeserializer.deserializeList vars (v :: vs) =
        (ValueDeserializer.deserialize_any vars v).bind fun c =>
          (ValueDeserializer.deserializeList vars vs).map fun cs => c :: cs) ∧
    (ValueDeserializer.deserialize_any
      (fun n => if n.as_str = "x" then some (.number 5) else none)
      (.object [(⟨"y", by decide⟩, .variable ⟨"x", by decide⟩)]) =
      .ok (.object [(⟨"y", by decide⟩, .number 5)])) := by
  refine ⟨?_, ?_, rfl, rfl, fun _ _ => rfl, fun _ _ _ => rfl, rfl⟩
  · intro vars name hnone
    simp only [ValueDeserializer.deserialize_any, get_variable, hnone]
  · intro vars name v hsome
    simp only [ValueDeserializer.deserialize_any, get_variable, hsome]

/-- Witness for C3 at concrete inputs. -/
theorem c3_value_deserializer_witness :
    ValueDeserializer.deserialize_any (fun _ => none) (.variable ⟨"x", by decide⟩) =
      .error ("variable " ++ "x" ++ " is not defined") ∧
    ValueDeserializer.deserialize_any
      (fun n => if n.as_str = "x" then some (.number 5) else none)
      (.variable ⟨"x", by decide⟩) = .ok (.number 5) :=
  ⟨c3_value_deserializer.1 (fun _ => none) ⟨"x", by decide⟩ rfl,
   c3_value_deserializer.2.1 _ ⟨"x", by decide⟩ (.number 5) rfl⟩

/-- C5: `is_skip` ignores directives named other than `skip`/`include`; a
`skip` or `include` directive without an `if` argument is a hard error
naming `if`; `@skip(if: true)` and `@include(if: false)` return `Ok(true)`
(omit the item) regardless of the remaining directives — the first
omission-requesting directive short-circuits, no later directive in the
list being evaluated. -/
theorem c5_is_skip :
    (∀ (ctx : ExecCtx) (d : Directive) (rest : List Directive),
      d.name ≠ "skip" → d.name ≠ "include" →
      ctx.is_skip (d :: rest) = ctx.is_skip rest) ∧
    (∀ (ctx : ExecCtx) (d : Directive) (rest : List Directive),
      d.name = "skip" → d.get_argument "if" = none →
      ctx.is_skip (d :: rest) = .error
        "Directive @skip requires argument `if` of type `Boolean!` but it was not provided.") ∧
    (∀ (ctx : ExecCtx) (d : Directive) (rest : List Directive),
      d.name = "include" → d.get_argument "if" = none →
      ctx.is_skip (d :: rest) = .error
        "Directive @include requires argument `if` of type `Boolean!` but it was not provided.") ∧
    (∀ (ctx : ExecCtx) (d : Directive) (rest : List Directive),
      d.name = "skip" → d.get_argument "if" = some (.boolean true) →
      ctx.is_skip (d :: rest) = .ok true) ∧
    (∀ (ctx : ExecCtx) (d : Directive) (rest : List Directive),
      d.name = "include" → d.get_argument "if" = some (.boolean false) →
      ctx.is_skip (d :: rest) = .ok true) := by
  refine ⟨?_, ?_, ?_, ?_, ?_⟩
  · intro ctx d rest h1 h2
    have hd : directiveInclude d.name = none := by
      unfold directiveInclude
      rw [if_neg h1, if_neg h2]
    simp only [ExecCtx.is_skip, hd]
  · intro ctx d rest hname harg
    have hd : directiveInclude d.name = some false := by rw [hname]; rfl
    simp only [ExecCtx.is_skip, hd, harg]
    rfl
  · intro ctx d rest hname harg
    have hd : directiveInclude d.name = some true := by rw [hname]; rfl
    simp only [ExecCtx.is_skip, hd, harg]
    rfl
  · intro ctx d rest hname harg
    have hd : directiveInclude d.name = some false := by rw [hname]; rfl
    simp only [ExecCtx.is_skip, hd, harg]
    rfl
  · intro ctx d rest hname harg
    have hd : directiveInclude d.name = some true := by rw [hname]; rfl
    simp only [ExecCtx.is_skip, hd, harg]
    rfl

/-- Witness for C5 at concrete inputs; the short-circuit instances place a
malformed `@skip` (no `if` argument) *after* the omission-requesting
directive and still get `Ok(true)`. -/
theorem c5_is_skip_witness :
    ExecCtx.is_skip ⟨[], []⟩ [⟨"deprecated", []⟩] = ExecCtx.is_skip ⟨[], []⟩ [] ∧
    ExecCtx.is_skip ⟨[], []⟩ [⟨"skip", []⟩] = .error
      "Directive @skip requires argument `if` of type `Boolean!` but it was not provided." ∧
    ExecCtx.is_skip ⟨[], []⟩ [⟨"include", []⟩] = .error
      "Directive @include requires argument `if` of type `Boolean!` but it was not provided." ∧
    ExecCtx.is_skip ⟨[], []⟩
      [⟨"skip", [(⟨"if", by decide⟩, .boolean true)]⟩, ⟨"skip", []⟩] = .ok true ∧
    ExecCtx.is_skip ⟨[], []⟩
      [⟨"include", [(⟨"if", by decide⟩, .boolean false)]⟩, ⟨"skip", []⟩] = .ok true :=
  ⟨c5_is_skip.1 ⟨[], []⟩ ⟨"deprecated", []⟩ [] (by decide) (by decide),
   c5_is_skip.2.1 ⟨[], []⟩ ⟨"skip", []⟩ [] rfl rfl,
   c5_is_skip.2.2.1 ⟨[], []⟩ ⟨"include", []⟩ [] rfl rfl,
   c5_is_skip.2.2.2.1 ⟨[], []⟩ ⟨"skip", [(⟨"if", by decide⟩, .boolean true)]⟩
     [⟨"skip", []⟩] rfl rfl,
   c5_is_skip.2.2.2.2 ⟨[], []⟩ ⟨"include", [(⟨"if", by decide⟩, .boolean false)]⟩
     [⟨"skip", []⟩] rfl rfl⟩

theorem execState_step_inv (s : ExecState)
    (h1 : s.alloc.map (fun r => r.current) = List.range' 1 s.counter)
    (h2 : ∀ c ∈ s.ctxs, c.current ≤ s.counter) (op : DescentOp) :
    (s.step op).alloc.map (fun r => r.current) = List.range' 1 (s.step op).counter ∧
    ∀ c ∈ (s.step op).ctxs, c.current ≤ (s.step op).counter := by
  have halloc : ∀ (c : ResolveId),
      (s.alloc ++ ([⟨some c.current, s.counter + 1⟩] : List ResolveId)).map
          (fun r => r.current) =
        List.range' 1 (s.counter + 1) := by
    intro c
    rw [List.map_append, h1, List.range'_concat]
    simp [Nat.add_comm]
  have hctxs : ∀ (c : ResolveId), c ∈ s.ctxs →
      ∀ c' ∈ s.ctxs ++ ([⟨some c.current, s.counter + 1⟩] : List ResolveId),
        c'.current ≤ s.counter + 1 := by
    intro c _ c' hc'
    rcases List.mem_append.mp hc' with h | h
    · exact Nat.le_trans (h2 c' h) (Nat.le_succ _)
    · rw [List.mem_singleton.mp h]
  cases op with
  | withField src =>
    cases hg : s.ctxs.get? src with
    | none => simp only [ExecState.step, hg]; exact ⟨h1, h2⟩
    | some c =>
      simp only [ExecState.step, hg]
      exact ⟨halloc c, hctxs c (List.get?_mem hg)⟩
  | withIndex src =>
    cases hg : s.ctxs.get? src with
    | none => simp only [ExecState.step, hg]; exact ⟨h1, h2⟩
    | some c =>
      simp only [ExecState.step, hg]
      exact ⟨halloc c, hctxs c (List.get?_mem hg)⟩
  | withSelectionSet src =>
    cases hg : s.ctxs.get? src with
    | none => simp only [ExecState.step, hg]; exact ⟨h1, h2⟩
    | some c =>
      simp only [ExecState.step, hg]
      refine ⟨h1, ?_⟩
      intro c' hc'
      rcases List.mem_append.mp hc' with h | h
      · exact h2 c' h
      · rw [List.mem_singleton.mp h]
        exact h2 c (List.get?_mem hg)

theorem execState_foldl_inv :
    ∀ (ops : List DescentOp) (s : ExecState),
      (s.alloc.map (fun r => r.current) = List.range' 1 s.counter ∧
        ∀ c ∈ s.ctxs, c.current ≤ s.counter) →
      ((ops.foldl ExecState.step s).alloc.map (fun r => r.current) =
        List.range' 1 (ops.foldl ExecState.step s).counter ∧
        ∀ c ∈ (ops.foldl ExecState.step s).ctxs,
          c.current ≤ (ops.foldl ExecState.step s).counter)
  | [], _, h => h
  | op :: ops, s, h =>
    execState_foldl_inv ops (s.step op) (execState_step_inv s h.1 h.2 op)

/-- C9: in any execution trace of context descents starting from the root
(`ResolveId::root`, id 0) over the single shared counter, the ids allocated
by `with_field`/`with_index` are exactly `1, 2, …, counter` in order (hence
globally unique across the whole tree, never reset per field or branch),
the id a descent allocates is `counter + 1` — distinct from the current id
of every context existing in the execution — and carries as parent exactly
the current id of the context that spawned it, so parent pointers
reconstruct the resolution tree; `with_selection_set` touches neither the
counter nor the allocation list. -/
theorem c9_resolve_id_allocation :
    ∀ ops : List DescentOp,
      ((ExecState.run ops).alloc.map (fun r => r.current) =
        List.range' 1 (ExecState.run ops).counter) ∧
      (((ExecState.run ops).alloc.map (fun r => r.current)).Nodup) ∧
      (∀ src,
        (ExecState.step (ExecState.run ops) (.withSelectionSet src)).counter =
          (ExecState.run ops).counter ∧
        (ExecState.step (ExecState.run ops) (.withSelectionSet src)).alloc =
          (ExecState.run ops).alloc) ∧
      (∀ src c, (ExecState.run ops).ctxs.get? src = some c →
        (ExecState.step (ExecState.run ops) (.withField src)).alloc =
          (ExecState.run ops).alloc ++
            [⟨some c.current, (ExecState.run ops).counter + 1⟩] ∧
        (ExecState.step (ExecState.run ops) (.withIndex src)).alloc =
          (ExecState.run ops).alloc ++
            [⟨some c.current, (ExecState.run ops).counter + 1⟩] ∧
        ((ExecState.run ops).counter + 1) ∉
          ((ExecState.run ops).ctxs.map (fun r => r.current))) := by
  intro ops
  have hinit : (ExecState.init.alloc.map (fun r => r.current) =
      List.range' 1 ExecState.init.counter ∧
      ∀ c ∈ ExecState.init.ctxs, c.current ≤ ExecState.init.counter) := by
    refine ⟨rfl, ?_⟩
    intro c hc
    rw [List.mem_singleton.mp hc]
    exact Nat.le_refl 0
  obtain ⟨h1, h2⟩ := execState_foldl_inv ops ExecState.init hinit
  have hrun : ExecState.run ops = List.foldl ExecState.step ExecState.init ops := rfl
  rw [hrun]
  refine ⟨h1, ?_, ?_, ?_⟩
  · rw [h1]; exact List.nodup_range' 1 _
  · intro src
    cases hg : (List.foldl ExecState.step ExecState.init ops).ctxs.get? src with
    | none => simp only [ExecState.step, hg]; exact ⟨trivial, trivial⟩
    | some c => simp only [ExecState.step, hg]; exact ⟨trivial, trivial⟩
  · intro src c hg
    refine ⟨by simp only [ExecState.step, hg], by simp only [ExecState.step, hg], ?_⟩
    intro hmem
    obtain ⟨c', hc', hcur⟩ := List.mem_map.mp hmem
    have := h2 c' hc'
    omega

/-- Witness for C9: after the trace `[with_field from root]`, descending
again from the context at index 1 (whose id is 1) allocates id 2 with
parent 1. -/
theorem c9_resolve_id_allocation_witness :
    (ExecState.step (ExecState.run [DescentOp.withField 0]) (.withField 1)).alloc =
      (ExecState.run [DescentOp.withField 0]).alloc ++
        [⟨some 1, (ExecState.run [DescentOp.withField 0]).counter + 1⟩] :=
  ((c9_resolve_id_allocation [DescentOp.withField 0]).2.2.2 1 ⟨some 0, 1⟩ rfl).1

mutual

theorem const_roundtrip :
    ∀ v : ConstValue, v.hasEnum = false →
      ConstValue.from_json v.into_json = .ok v
  | .null, _ => rfl
  | .number _, _ => rfl
  | .string _, _ => rfl
  | .boolean _, _ => rfl
  | .enum _, h => by simp [ConstValue.hasEnum] at h
  | .list items, h => by
    have hl := const_roundtrip_list items (by simpa [ConstValue.hasEnum] using h)
    simp only [ConstValue.into_json, ConstValue.from_json, hl]
    rfl
  | .object entries, h => by
    have hl := const_roundtrip_obj entries (by simpa [ConstValue.hasEnum] using h)
    simp only [ConstValue.into_json, ConstValue.from_json, hl]
    rfl

theorem const_roundtrip_list :
    ∀ vs : List ConstValue, ConstValue.hasEnumList vs = false →
      ConstValue.fromJsonList (ConstValue.intoJsonList vs) = .ok vs
  | [], _ => rfl
  | v :: vs, h => by
    have hh := Bool.or_eq_false_iff.mp (by simpa [ConstValue.hasEnumList] using h)
    have h1 := const_roundtrip v hh.1
    have h2 := const_roundtrip_list vs hh.2
    simp only [ConstValue.intoJsonList, ConstValue.fromJsonList, h1, h2]
    rfl

theorem const_roundtrip_obj :
    ∀ kvs : List (Name × ConstValue), ConstValue.hasEnumObject kvs = false →
      ConstValue.fromJsonObject (ConstValue.intoJsonObject kvs) = .ok kvs
  | [], _ => rfl
  | (⟨ks, hk⟩, v) :: kvs, h => by
    have hh := Bool.or_eq_false_iff.mp (by simpa [ConstValue.hasEnumObject] using h)
    have h1 := const_roundtrip v hh.1
    have h2 := const_roundtrip_obj kvs hh.2
    simp only [ConstValue.intoJsonObject, ConstValue.fromJsonObject, Name.as_str]
    rw [dif_pos hk]
    simp only [h1, h2]
    rfl

end

/-- C4: for every `ConstValue` containing no `Enum` node, converting to
JSON and back (`into_json` — which is total on `ConstValue`, no variant can
fail to serialize — then `from_json`) succeeds and returns the original
value. -/
theorem c4_const_json_roundtrip :
    ∀ v : ConstValue, v.hasEnum = false →
      ConstValue.from_json (ConstValue.into_json v) = .ok v :=
  const_roundtrip

/-- Witness for C4 at a concrete nested Enum-free value. -/
theorem c4_const_json_roundtrip_witness :
    ConstValue.from_json (ConstValue.into_json
      (.object [(⟨"a", by decide⟩, .list [.number 5, .string "x", .boolean true, .null])])) =
      .ok (.object [(⟨"a", by decide⟩, .list [.number 5, .string "x", .boolean true, .null])]) :=
  c4_const_json_roundtrip _ rfl

theorem rankOk_lookup {frags : Fragments} {rank : String → Nat}
    (hR : RankOk frags rank) {n : String} {body : List Selection}
    (hl : Fragments.lookup frags n = some body) :
    ∀ m ∈ Selection.spreadsList body, rank m < rank n := by
  unfold Fragments.lookup at hl
  cases hf : List.find? (fun p => p.1 == n) frags with
  | none => rw [hf] at hl; exact Option.noConfusion hl
  | some p =>
    rw [hf] at hl
    injection hl with hb
    have hmem : p ∈ frags := List.mem_of_find?_eq_some hf
    have hfind := List.find?_some hf
    have hpn : p.1 = n := by
      simp only [beq_iff_eq] at hfind
      exact hfind
    intro m hm
    rw [← hpn]
    have hb' : p.2 = body := hb
    exact hR p hmem m (by rw [hb']; exact hm)

mutual

theorem potSel_stable (frags : Fragments) (rank : String → Nat)
    (hR : RankOk frags rank) :
    ∀ (b : Nat) (s : Selection), (∀ m ∈ Selection.spreads s, rank m < b) →
      potSel frags (b + 1) s = potSel frags b s
  | _, .field _ _, _ => by simp [potSel]
  | b, .inlineFragment ss, h => by
    have hss := potSels_stable frags rank hR b ss
      (by simpa [Selection.spreads] using h)
    simp [potSel, hss]
  | b, .fragmentSpread n, h => by
    have hn : rank n < b := h n (by simp [Selection.spreads])
    obtain ⟨c, rfl⟩ : ∃ c, b = c + 1 := ⟨b - 1, by omega⟩
    cases hl : Fragments.lookup frags n with
    | none => simp [potSel, hl]
    | some body =>
      have hbody : ∀ m ∈ Selection.spreadsList body, rank m < c := by
        intro m hm
        have := rankOk_lookup hR hl m hm
        omega
      have hss := potSels_stable frags rank hR c body hbody
      simp [potSel, hl, hss]
termination_by b s _ => (b, sizeOf s)

theorem potSels_stable (frags : Fragments) (rank : String → Nat)
    (hR : RankOk frags rank) :
    ∀ (b : Nat) (ss : List Selection),
      (∀ m ∈ Selection.spreadsList ss, rank m < b) →
      potSels frags (b + 1) ss = potSels frags b ss
  | _, [], _ => by simp [potSels]
  | b, s :: ss, h => by
    have hs := potSel_stable frags rank hR b s (by
      intro m hm
      exact h m (by simp only [Selection.spreadsList, List.mem_append]; exact Or.inl hm))
    have hss := potSels_stable frags rank hR b ss (by
      intro m hm
      exact h m (by simp only [Selection.spreadsList, List.mem_append]; exact Or.inr hm))
    simp [potSels, hs, hss]
termination_by b ss _ => (b, sizeOf ss)

end

theorem potSel_spread_none {frags : Fragments} {n : String}
    (hl : Fragments.lookup frags n = none) (b : Nat) :
    potSel frags b (.fragmentSpread n) = 1 := by
  cases b with
  | zero => simp [potSel]
  | succ c => simp [potSel, hl]

theorem runIter_terminates (frags : Fragments) (rank : String → Nat)
    (hR : RankOk frags rank) (B : Nat) :
    ∀ (fuel : Nat) (stack : List (List Selection)),
      StackOk frags rank B stack →
      2 * potStack frags B stack + stack.length < fuel →
      ∃ out, runIter frags fuel stack = some out := by
  intro fuel
  induction fuel with
  | zero => intro stack _ hm; omega
  | succ f ih =>
    intro stack hok hm
    cases stack with
    | nil => exact ⟨[], rfl⟩
    | cons l rest =>
      cases l with
      | nil =>
        have hok' : StackOk frags rank B rest :=
          fun l hl => hok l (List.mem_cons_of_mem _ hl)
        have hm' : 2 * potStack frags B rest + rest.length < f := by
          have h0 : potSels frags B ([] : List Selection) = 0 := by simp [potSels]
          simp only [potStack, h0, List.length_cons] at hm
          omega
        obtain ⟨out, ho⟩ := ih rest hok' hm'
        exact ⟨out, by simp [runIter, ho]⟩
      | cons s tl =>
        have hokTl : ∀ m ∈ Selection.spreadsList tl, rank m < B := by
          intro m hm'
          exact hok (s :: tl) (List.mem_cons_self _ _) m
            (by simp only [Selection.spreadsList, List.mem_append]; exact Or.inr hm')
        have hokRest : StackOk frags rank B rest :=
          fun l hl => hok l (List.mem_cons_of_mem _ hl)
        have hokTlRest : StackOk frags rank B (tl :: rest) := by
          intro l hl
          rcases List.mem_cons.mp hl with h | h
          · exact h ▸ hokTl
          · exact hokRest l h
        have hcons : potSels frags B (s :: tl) =
            potSel frags B s + potSels frags B tl := by simp [potSels]
        cases s with
        | field name ss =>
          have hm' : 2 * potStack frags B (tl :: rest) + (tl :: rest).length < f := by
            have h1 : potSel frags B (.field name ss) = 1 := by simp [potSel]
            simp only [potStack, hcons, h1, List.length_cons] at hm ⊢
            omega
          obtain ⟨out, ho⟩ := ih (tl :: rest) hokTlRest hm'
          exact ⟨(name, ss) :: out, by simp [runIter, ho]⟩
        | inlineFragment ss =>
          have hokNew : StackOk frags rank B (ss :: tl :: rest) := by
            intro l hl
            rcases List.mem_cons.mp hl with h | h
            · subst h
              intro m hm'
              exact hok (Selection.inlineFragment l :: tl) (List.mem_cons_self _ _) m
                (by simp only [Selection.spreadsList, Selection.spreads,
                      List.mem_append]; exact Or.inl hm')
            · exact hokTlRest l h
          have hm' : 2 * potStack frags B (ss :: tl :: rest) +
              (ss :: tl :: rest).length < f := by
            have h1 : potSel frags B (.inlineFragment ss) =
                1 + potSels frags B ss := by simp [potSel]
            simp only [potStack, hcons, h1, List.length_cons] at hm ⊢
            omega
          obtain ⟨out, ho⟩ := ih (ss :: tl :: rest) hokNew hm'
          exact ⟨out, by simp [runIter, ho]⟩
        | fragmentSpread n =>
          have hrn : rank n < B :=
            hok (Selection.fragmentSpread n :: tl) (List.mem_cons_self _ _) n
              (by simp [Selection.spreadsList, Selection.spreads])
          cases hl : Fragments.lookup frags n with
          | none =>
            have hm' : 2 * potStack frags B (tl :: rest) + (tl :: rest).length < f := by
              have h1 := potSel_spread_none hl B
              simp only [potStack, hcons, h1, List.length_cons] at hm ⊢
              omega
            obtain ⟨out, ho⟩ := ih (tl :: rest) hokTlRest hm'
            exact ⟨out, by simp [runIter, hl, ho]⟩
          | some body =>
            obtain ⟨c, rfl⟩ : ∃ c, B = c + 1 := ⟨B - 1, by omega⟩
            have hbody : ∀ m ∈ Selection.spreadsList body, rank m < c + 1 := by
              intro m hm'
              have := rankOk_lookup hR hl m hm'
              omega
            have hokNew : StackOk frags rank (c + 1) (body :: tl :: rest) := by
              intro l hl'
              rcases List.mem_cons.mp hl' with h | h
              · exact h ▸ hbody
              · exact hokTlRest l h
            have hstable : potSels frags (c + 1) body = potSels frags c body := by
              apply potSels_stable frags rank hR c body
              intro m hm'
              have := rankOk_lookup hR hl m hm'
              omega
            have hm' : 2 * potStack frags (c + 1) (body :: tl :: rest) +
                (body :: tl :: rest).length < f := by
              have h1 : potSel frags (c + 1) (.fragmentSpread n) =
                  1 + potSels frags c body := by simp [potSel, hl]
              simp only [potStack, hcons, h1, hstable, List.length_cons] at hm ⊢
              omega
            obtain ⟨out, ho⟩ := ih (body :: tl :: rest) hokNew hm'
            exact ⟨out, by simp [runIter, hl, ho]⟩

/-- C10: when the fragment-spread reachability relation is acyclic
(witnessed by a rank function decreasing along every spread edge), the
selection-set introspection iterator started on a field's selection set
terminates — fuel `2 · potential + 2` suffices — yielding finitely many
named sub-selections; and a fragment spread naming a fragment absent from
the table is silently skipped (one loop iteration proceeds with the rest of
the stack, with no error). -/
theorem c10_selection_iter_terminates :
    ∀ (frags : Fragments) (rank : String → Nat) (B : Nat)
      (selection_set : List Selection),
      RankOk frags rank →
      (∀ m ∈ Selection.spreadsList selection_set, rank m < B) →
      (∃ out, selection_set_iter frags
        (2 * potSels frags B selection_set + 2) selection_set = some out) ∧
      (∀ (fuel : Nat) (n : String) (tl : List Selection)
          (rest : List (List Selection)),
        Fragments.lookup frags n = none →
        runIter frags (fuel + 1) ((Selection.fragmentSpread n :: tl) :: rest) =
          runIter frags fuel (tl :: rest)) := by
  intro frags rank B sels hR hB
  constructor
  · apply runIter_terminates frags rank hR B
    · intro l hl m hm
      rw [List.mem_singleton.mp hl] at hm
      exact hB m hm
    · have : potStack frags B [sels] = potSels frags B sels + 0 := rfl
      simp only [this, List.length_cons, List.length_nil]
      omega
  · intro fuel n tl rest hl
    simp [runIter, hl]

/-- Witness for C10: a concrete acyclic two-fragment table (`A` spreads
`B`), a selection set spreading `A` and a missing fragment. -/
theorem c10_selection_iter_terminates_witness :
    (∃ out, selection_set_iter
      [("A", [Selection.field "b" [], Selection.fragmentSpread "B"]),
       ("B", [Selection.field "c" []])]
      (2 * potSels
        [("A", [Selection.field "b" [], Selection.fragmentSpread "B"]),
         ("B", [Selection.field "c" []])] 2
        [Selection.fragmentSpread "A", Selection.fragmentSpread "nope",
         Selection.field "a" []] + 2)
      [Selection.fragmentSpread "A", Selection.fragmentSpread "nope",
       Selection.field "a" []] = some out) ∧
    runIter
      [("A", [Selection.field "b" [], Selection.fragmentSpread "B"]),
       ("B", [Selection.field "c" []])]
      9 [[Selection.fragmentSpread "nope"]] =
      runIter
        [("A", [Selection.field "b" [], Selection.fragmentSpread "B"]),
         ("B", [Selection.field "c" []])]
        8 [[]] :=
  ⟨(c10_selection_iter_terminates
      [("A", [Selection.field "b" [], Selection.fragmentSpread "B"]),
       ("B", [Selection.field "c" []])]
      (fun n => if n = "A" then 1 else 0) 2
      [Selection.fragmentSpread "A", Selection.fragmentSpread "nope",
       Selection.field "a" []]
      (by decide) (by decide)).1,
   (c10_selection_iter_terminates
      [("A", [Selection.field "b" [], Selection.fragmentSpread "B"]),
       ("B", [Selection.field "c" []])]
      (fun n => if n = "A" then 1 else 0) 2
      [Selection.fragmentSpread "A", Selection.fragmentSpread "nope",
       Selection.field "a" []]
      (by decide) (by decide)).2 8 "nope" [] [] rfl⟩

end AsyncGraphql
